import Mathlib

/-!
Verification of the sage-points staking indexer.

The definitions below are a shallow embedding of the Rust sources:
  * src/main.rs  — position data model, in-memory `PointsTracker` state
                   machine, `calculate_position_points`, the backfill loop
                   of `run_monitoring`, and the `handle_log` event handler;
  * src/db.rs    — the persisted statements (`save_position`, `save_event`,
                   `update_last_processed_block`) and the read queries
                   (`get_user_points`, `get_leaderboard`);
  * src/api.rs   — address validation and the leaderboard `limit` handling.

Machine integers are modelled as `Nat` (`u64`, `U256` values); `u64`
saturating subtraction becomes truncated `Nat` subtraction, and the
`i64` arithmetic of the database read path is modelled over `Int`.
`f64` points arithmetic is modelled over `ℚ` (the spec documents the
values as exact decimal quantities).  Hash maps are modelled as
association lists with overwrite-on-insert semantics.  Wall-clock reads
(`SystemTime::now()`, `chrono::Utc::now()`) become an explicit reference
time parameter.
-/

namespace SagePoints

/-- Position status, from `enum PositionStatus` in src/main.rs. -/
inductive PositionStatus
  | Active
  | Unstaking
  | Withdrawn
deriving DecidableEq, Repr

/-- A staking position, from `struct Position` in src/main.rs.
Addresses are modelled as naturals; `amount` is the wei-scale `U256`. -/
structure Position where
  user : ℕ
  nonce : ℕ
  amount : ℕ
  deposit_timestamp : ℕ
  status : PositionStatus
  withdrawal_initiated_timestamp : Option ℕ
  block_number : ℕ
deriving DecidableEq, Repr

/-- Position keys: `(user, nonce)`, as used by the three tracker maps. -/
abbrev Key := ℕ × ℕ

/-- A position map (`HashMap<(Address, u64), Position>`), modelled as an
association list whose insert overwrites the key. -/
abbrev PosMap := List (Key × Position)

/-- Map lookup (`HashMap::get`). -/
def lookupKey : PosMap → Key → Option Position
  | [], _ => none
  | (k2, p) :: rest, k => if k2 = k then some p else lookupKey rest k

/-- Map removal (`HashMap::remove`). -/
def removeKey : PosMap → Key → PosMap
  | [], _ => []
  | (k2, p) :: rest, k =>
      if k2 = k then removeKey rest k else (k2, p) :: removeKey rest k

/-- Map insertion (`HashMap::insert`): overwrites any entry at the key. -/
def insertKey (m : PosMap) (k : Key) (p : Position) : PosMap :=
  (k, p) :: removeKey m k

@[simp]
lemma lookup_insert_self (m : PosMap) (k : Key) (p : Position) :
    lookupKey (insertKey m k p) k = some p := by
  simp [insertKey, lookupKey]

@[simp]
lemma lookup_remove_self (m : PosMap) (k : Key) :
    lookupKey (removeKey m k) k = none := by
  induction m with
  | nil => simp [removeKey, lookupKey]
  | cons hd tl ih =>
      obtain ⟨k2, p⟩ := hd
      by_cases h : k2 = k <;> simp [removeKey, lookupKey, h, ih]

lemma lookup_remove_ne (m : PosMap) (k k2 : Key) (h : k2 ≠ k) :
    lookupKey (removeKey m k) k2 = lookupKey m k2 := by
  induction m with
  | nil => simp [removeKey]
  | cons hd tl ih =>
      obtain ⟨k3, p⟩ := hd
      by_cases h3 : k3 = k
      · subst h3
        simp [removeKey, lookupKey, Ne.symm h, ih]
      · by_cases h2 : k3 = k2
        · subst h2
          simp [removeKey, lookupKey, h3, h]
        · simp [removeKey, lookupKey, h3, h2, ih]

lemma lookup_insert_ne (m : PosMap) (k k2 : Key) (p : Position) (h : k2 ≠ k) :
    lookupKey (insertKey m k p) k2 = lookupKey m k2 := by
  simp [insertKey, lookupKey, Ne.symm h, lookup_remove_ne m k k2 h]

/-- The in-memory tracker state of `struct PointsTracker` (src/main.rs):
three maps partitioned by status.  The database handle and the counters
(`total_events_processed`, `current_block`) carry no position state and
are omitted. -/
structure PointsTracker where
  active_positions : PosMap
  unstaking_positions : PosMap
  withdrawn_positions : PosMap
deriving DecidableEq, Repr

/-- `PointsTracker::get_position`: search active, then unstaking, then
withdrawn. -/
def get_position (t : PointsTracker) (k : Key) : Option Position :=
  match lookupKey t.active_positions k with
  | some p => some p
  | none =>
      match lookupKey t.unstaking_positions k with
      | some p => some p
      | none => lookupKey t.withdrawn_positions k

/-- `PointsTracker::move_to_unstaking`: if the key is in the active map,
set status to Unstaking, record the withdrawal timestamp and move the
entry to the unstaking map; otherwise do nothing. -/
def move_to_unstaking (t : PointsTracker) (k : Key) (timestamp : ℕ) :
    PointsTracker :=
  match lookupKey t.active_positions k with
  | some p =>
      { t with
        active_positions := removeKey t.active_positions k
        unstaking_positions :=
          insertKey t.unstaking_positions k
            { p with
              status := PositionStatus.Unstaking
              withdrawal_initiated_timestamp := some timestamp } }
  | none => t

/-- `PointsTracker::move_to_withdrawn`: if the key is in the unstaking
map, set status to Withdrawn and move the entry to the withdrawn map;
otherwise do nothing. -/
def move_to_withdrawn (t : PointsTracker) (k : Key) : PointsTracker :=
  match lookupKey t.unstaking_positions k with
  | some p =>
      { t with
        unstaking_positions := removeKey t.unstaking_positions k
        withdrawn_positions :=
          insertKey t.withdrawn_positions k
            { p with status := PositionStatus.Withdrawn } }
  | none => t

/-- `PointsTracker::move_to_active`: if the key is in the unstaking map,
set status to Active, overwrite the deposit timestamp, clear the
withdrawal timestamp and move the entry to the active map; otherwise do
nothing. -/
def move_to_active (t : PointsTracker) (k : Key)
    (new_deposit_timestamp : ℕ) : PointsTracker :=
  match lookupKey t.unstaking_positions k with
  | some p =>
      { t with
        unstaking_positions := removeKey t.unstaking_positions k
        active_positions :=
          insertKey t.active_positions k
            { p with
              status := PositionStatus.Active
              withdrawal_initiated_timestamp := none
              deposit_timestamp := new_deposit_timestamp } }
  | none => t

/-- `PointsTracker::add_active_position`: unconditional insert into the
active map (the source performs no duplicate-key check). -/
def add_active_position (t : PointsTracker) (k : Key) (p : Position) :
    PointsTracker :=
  { t with active_positions := insertKey t.active_positions k p }

/-- A decoded staking event, after the `u64` narrowing performed in
`handle_log` (src/main.rs); field order follows the `sol!` declarations. -/
inductive StakingEvent
  | Deposit (user amount nonce timestamp : ℕ)
  | InitiateWithdraw (user nonce unlocksAt timestamp : ℕ)
  | Withdraw (user amount nonce timestamp : ℕ)
  | Restake (user nonce amount timestamp : ℕ)
deriving DecidableEq, Repr

/-- The position-state mutation performed by `handle_log` for each
decoded event (src/main.rs lines 546-721), stripped of logging and of
the database writes (modelled separately). -/
def handle_event (t : PointsTracker) (blockNum : ℕ) :
    StakingEvent → PointsTracker
  | StakingEvent.Deposit u a n ts =>
      add_active_position t (u, n)
        { user := u, nonce := n, amount := a, deposit_timestamp := ts,
          status := PositionStatus.Active,
          withdrawal_initiated_timestamp := none, block_number := blockNum }
  | StakingEvent.InitiateWithdraw u n _ ts => move_to_unstaking t (u, n) ts
  | StakingEvent.Withdraw u _ n _ => move_to_withdrawn t (u, n)
  | StakingEvent.Restake u n _ ts => move_to_active t (u, n) ts

/-- Applying a chain-ordered list of `(block_number, event)` pairs. -/
def applyEvents (t : PointsTracker) (es : List (ℕ × StakingEvent)) :
    PointsTracker :=
  es.foldl (fun acc be => handle_event acc be.1 be.2) t

/-- The `(user, nonce)` key carried by an event. -/
def eventKey : StakingEvent → Key
  | StakingEvent.Deposit u _ n _ => (u, n)
  | StakingEvent.InitiateWithdraw u n _ _ => (u, n)
  | StakingEvent.Withdraw u _ n _ => (u, n)
  | StakingEvent.Restake u n _ _ => (u, n)

/-- Whether an event is a Deposit. -/
def isDepositEvent : StakingEvent → Bool
  | StakingEvent.Deposit _ _ _ _ => true
  | _ => false

/-- Points pair, from `struct PointsBreakdown` (src/main.rs); the `f64`
values are modelled over `ℚ`. -/
structure PointsBreakdown where
  sage_points : ℚ
  formation_points : ℚ
deriving DecidableEq, Repr

/-- `PointsTracker::calculate_position_points` (src/main.rs lines
156-183).  `now` replaces the `SystemTime::now()` wall-clock read; the
`u64` saturating subtraction is `Nat` truncated subtraction; rates are
0.01 SAGE and 0.005 Formation per token per day. -/
def calculate_position_points (now : ℕ) (position : Position) :
    PointsBreakdown :=
  let end_timestamp : ℕ :=
    match position.withdrawal_initiated_timestamp with
    | some withdrawal_ts => withdrawal_ts
    | none =>
        if position.status = PositionStatus.Active then now
        else position.deposit_timestamp
  let seconds_staked : ℕ := end_timestamp - position.deposit_timestamp
  let days_staked : ℚ := (seconds_staked : ℚ) / 86400
  let tokens : ℚ := (position.amount : ℚ) / 10 ^ 18
  { sage_points := tokens * days_staked * (1 / 100)
    formation_points := tokens * days_staked * (1 / 200) }

/-- Modelled from the spec: the points formula of spec §4.3 as written
(`seconds = max(0, T_end - deposit_timestamp)` over the integers),
returning the `(sage, formation)` pair.  Used only to compare the code's
two points paths against the spec's words. -/
def spec_position_points (tRef : ℤ) (position : Position) : ℚ × ℚ :=
  let tEnd : ℤ :=
    match position.withdrawal_initiated_timestamp with
    | some withdrawal_ts => (withdrawal_ts : ℤ)
    | none =>
        if position.status = PositionStatus.Active then tRef
        else (position.deposit_timestamp : ℤ)
  let seconds : ℤ := max 0 (tEnd - (position.deposit_timestamp : ℤ))
  let days : ℚ := (seconds : ℚ) / 86400
  let tokens : ℚ := (position.amount : ℚ) / 10 ^ 18
  (tokens * days * (1 / 100), tokens * days * (1 / 200))

/-- The signed staked duration computed by the database read paths
(`Database::get_user_points` in src/db.rs lines 253-270 and the `CASE`
expression of the leaderboard SQL): `end_timestamp - deposit_timestamp`
over `i64`, with NO clamping to zero. -/
def db_position_seconds (current_time : ℤ) (position : Position) : ℤ :=
  let end_timestamp : ℤ :=
    match position.withdrawal_initiated_timestamp with
    | some withdrawal_ts => (withdrawal_ts : ℤ)
    | none =>
        if position.status = PositionStatus.Active then current_time
        else (position.deposit_timestamp : ℤ)
  end_timestamp - (position.deposit_timestamp : ℤ)

/-- Per-row points of the database read paths: `amount/1e18 *
seconds/86400 * rate`, shared by `get_user_points` (src/db.rs) and the
leaderboard SQL, which use the same formula.  Returns `(sage,
formation)`. -/
def db_position_points (current_time : ℤ) (position : Position) : ℚ × ℚ :=
  let amount_float : ℚ := (position.amount : ℚ) / 10 ^ 18
  let days_staked : ℚ := ((db_position_seconds current_time position : ℤ) : ℚ) / 86400
  (amount_float * days_staked * (1 / 100),
   amount_float * days_staked * (1 / 200))

/-- Response of `GET /api/points/{address}`, from `struct UserPoints`
(src/db.rs); the address is modelled as a natural. -/
structure UserPoints where
  address : ℕ
  sage_points : ℚ
  formation_points : ℚ
  total_points : ℚ
  active_amount : ℚ
  unstaking_amount : ℚ
  withdrawn_amount : ℚ
deriving DecidableEq, Repr

/-- `Database::get_user_points` (src/db.rs lines 233-294): fold over
the user's position rows, accumulating unclamped per-row points and the
per-status amount sums; `total_points` is assembled at the end. -/
def get_user_points (current_time : ℤ) (address : ℕ)
    (rows : List Position) : UserPoints :=
  let acc :=
    rows.foldl
      (fun (acc : UserPoints) (p : Position) =>
        let pts := db_position_points current_time p
        let amount_float : ℚ := (p.amount : ℚ) / 10 ^ 18
        { acc with
          sage_points := acc.sage_points + pts.1
          formation_points := acc.formation_points + pts.2
          active_amount := acc.active_amount +
            (if p.status = PositionStatus.Active then amount_float else 0)
          unstaking_amount := acc.unstaking_amount +
            (if p.status = PositionStatus.Unstaking then amount_float else 0)
          withdrawn_amount := acc.withdrawn_amount +
            (if p.status = PositionStatus.Withdrawn then amount_float else 0) })
      { address := address, sage_points := 0, formation_points := 0,
        total_points := 0, active_amount := 0, unstaking_amount := 0,
        withdrawn_amount := 0 }
  { acc with total_points := acc.sage_points + acc.formation_points }

/-- Leaderboard entry of `GET /api/leaderboard`, from
`struct LeaderboardEntry` (src/db.rs). -/
structure LeaderboardEntry where
  rank : ℕ
  address : ℕ
  sage_points : ℚ
  formation_points : ℚ
  total_points : ℚ
deriving DecidableEq, Repr

/-- `(address, sage, formation)` per-user aggregate used while building
the leaderboard. -/
abbrev UserTotals := ℕ × ℚ × ℚ

/-- Total points of an aggregate row. -/
def totalOf (e : UserTotals) : ℚ := e.2.1 + e.2.2

/-- Add one row's points into the per-user aggregation (the SQL
`GROUP BY user_address`); users appear in first-occurrence order of the
row list, realising the unspecified grouping order. -/
def addPoints (u : ℕ) (s f : ℚ) : List UserTotals → List UserTotals
  | [] => [(u, s, f)]
  | (u2, s2, f2) :: rest =>
      if u2 = u then (u2, s2 + s, f2 + f) :: rest
      else (u2, s2, f2) :: addPoints u s f rest

/-- The `user_points` CTE of `Database::get_leaderboard` (src/db.rs
lines 333-380): group the position rows by user and sum the per-row
points of the `CASE` expression (same formula as `db_position_points`). -/
def userTotals (current_time : ℤ) (rows : List Position) :
    List UserTotals :=
  rows.foldl
    (fun acc p =>
      let pts := db_position_points current_time p
      addPoints p.user pts.1 pts.2 acc)
    []

/-- Stable insertion into a list kept in non-increasing `totalOf` order.
An element is placed before the first strictly smaller total, so
elements with equal totals keep their input order — the behaviour of
`ORDER BY total_points DESC` (and of Rust's stable `sort_by` on totals
in `PointsTracker::get_leaderboard`), neither of which breaks ties by
address. -/
def insertByTotalDesc (x : UserTotals) : List UserTotals → List UserTotals
  | [] => [x]
  | y :: ys =>
      if totalOf y ≤ totalOf x then x :: y :: ys
      else y :: insertByTotalDesc x ys

/-- Stable sort by total points, descending: `ORDER BY (sage_points +
formation_points) DESC` with ties left in input order. -/
def sortByTotalDesc : List UserTotals → List UserTotals
  | [] => []
  | x :: xs => insertByTotalDesc x (sortByTotalDesc xs)

/-- `ROW_NUMBER() OVER (ORDER BY ... DESC)`: attach ranks `i, i+1, ...`
in list order, building the response entries. -/
def addRanks : ℕ → List UserTotals → List LeaderboardEntry
  | _, [] => []
  | i, (u, s, f) :: rest =>
      { rank := i, address := u, sage_points := s, formation_points := f,
        total_points := s + f } :: addRanks (i + 1) rest

/-- `Database::get_leaderboard` (src/db.rs lines 333-394): aggregate,
sort by total descending, number the rows from 1, truncate to `LIMIT`. -/
def get_leaderboard (current_time : ℤ) (rows : List Position)
    (limit : ℕ) : List LeaderboardEntry :=
  (addRanks 1 (sortByTotalDesc (userTotals current_time rows))).take limit

/-- The effective leaderboard limit computed by the API handler
(src/api.rs line 96): `query.limit.unwrap_or(10).min(100)` over `i64`.
There is no lower clamp. -/
def effective_limit (limit : Option ℤ) : ℤ :=
  min (limit.getD 10) 100

/-- The address acceptance check of `get_user_points` / `get_user_events`
(src/api.rs lines 47 and 73): the request is rejected unless the string
starts with "0x" and its length is 42.  Strings are viewed as their
character lists (the inputs of interest are ASCII, where Rust's byte
length equals the character count). -/
def isValidAddressCheck (address : String) : Bool :=
  address.toList.take 2 = ['0', 'x'] && address.toList.length = 42

/-- A hexadecimal digit, as in the character class `[0-9a-fA-F]`. -/
def isHexDigit (c : Char) : Bool :=
  (('0' ≤ c && c ≤ '9') || ('a' ≤ c && c ≤ 'f') || ('A' ≤ c && c ≤ 'F'))

/-- Modelled from the spec: the address pattern `^0x[0-9a-fA-F]{40}$`
of spec §4.5, for comparison with the code's check. -/
def matchesAddressPattern (address : String) : Bool :=
  address.toList.take 2 = ['0', 'x'] && address.toList.length = 42
    && (address.toList.drop 2).all isHexDigit

/-- An event audit row, from `struct EventData` (src/db.rs). -/
structure EventData where
  event_type : String
  user : ℕ
  nonce : Option ℕ
  amount : Option ℕ
  block_number : ℕ
  tx_hash : String
  timestamp : ℕ
deriving DecidableEq, Repr

/-- The persisted database state: the positions table, the append-only
events table, and the `last_processed_block` row of `sync_metadata`. -/
structure DbState where
  positions : PosMap
  events : List EventData
  last_processed_block : Option ℕ
deriving DecidableEq, Repr

/-- One SQL statement issued by the indexer: `Database::save_position`
(upsert), `Database::save_event` (insert), or
`Database::update_last_processed_block` (upsert). -/
inductive DbStmt
  | savePosition (p : Position)
  | saveEvent (e : EventData)
  | updateLastProcessedBlock (b : ℕ)
deriving DecidableEq, Repr

/-- Effect of one statement on the persisted state.  Each statement is
its own commit: src/db.rs wraps none of them in a transaction. -/
def applyStmt (s : DbState) : DbStmt → DbState
  | DbStmt.savePosition p =>
      { s with positions := insertKey s.positions (p.user, p.nonce) p }
  | DbStmt.saveEvent e => { s with events := s.events ++ [e] }
  | DbStmt.updateLastProcessedBlock b =>
      { s with last_processed_block := some b }

/-- Sequential execution of a statement list; a crash after `k`
statements leaves `applyStmts s (stmts.take k)` on disk. -/
def applyStmts (s : DbState) (stmts : List DbStmt) : DbState :=
  stmts.foldl applyStmt s

/-- The statement sequence persisted while processing one Deposit log
and finishing its block range: `save_position` (inside
`add_active_position`), then `save_event`, then
`update_last_processed_block` (src/main.rs lines 563-589 and 439-446) —
three independent statements, not one transaction. -/
def depositRangeStmts (u a n ts b toBlock : ℕ) (tx : String) :
    List DbStmt :=
  [DbStmt.savePosition
     { user := u, nonce := n, amount := a, deposit_timestamp := ts,
       status := PositionStatus.Active,
       withdrawal_initiated_timestamp := none, block_number := b },
   DbStmt.saveEvent
     { event_type := "Deposit", user := u, nonce := some n,
       amount := some a, block_number := b, tx_hash := tx,
       timestamp := ts },
   DbStmt.updateLastProcessedBlock toBlock]

/-- `MAX_BLOCK_RANGE` (src/main.rs line 31). -/
def MAX_BLOCK_RANGE : ℕ := 500

/-- Outcome of one `provider.get_logs` call. -/
inductive FetchResult
  | ok (logs : List (ℕ × StakingEvent))
  | rateLimit
  | fetchErr
deriving DecidableEq, Repr

/-- The rate-limit retry loop of `run_monitoring` (src/main.rs lines
421-462): on a rate-limit error with `retry_count < 3`, retry the same
range; any other error, or a fourth rate limit, gives up.  `fetch` is
the RPC modelled as a function of `(from_block, to_block, attempt)`;
the second `ℕ` argument counts remaining retries (3 at the start). -/
def retryFetch (fetch : ℕ → ℕ → ℕ → FetchResult) (fromBlock toBlock : ℕ) :
    ℕ → ℕ → FetchResult
  | attempt, 0 => fetch fromBlock toBlock attempt
  | attempt, fuel + 1 =>
      match fetch fromBlock toBlock attempt with
      | FetchResult.rateLimit =>
          retryFetch fetch fromBlock toBlock (attempt + 1) fuel
      | r => r

/-- Whether a fetch outcome is a success. -/
def isOk : FetchResult → Bool
  | FetchResult.ok _ => true
  | _ => false

/-- The historical backfill loop of `run_monitoring` (src/main.rs lines
397-470), restricted to its cursor writes: while `from_block <
current_block`, take the next `MAX_BLOCK_RANGE` chunk; on success
persist `last_processed_block = to_block`; on failure skip the range
WITHOUT a cursor write; either way continue from `to_block + 1`.
Returns the ordered list of persisted cursor values.  `fuel` bounds the
iteration count (any value at least the number of chunks is exact). -/
def runBackfill (fetch : ℕ → ℕ → ℕ → FetchResult) :
    ℕ → ℕ → ℕ → List ℕ
  | 0, _, _ => []
  | fuel + 1, fromBlock, head =>
      if fromBlock < head then
        let toBlock := min (fromBlock + MAX_BLOCK_RANGE) head
        match retryFetch fetch fromBlock toBlock 0 3 with
        | FetchResult.ok _ =>
            toBlock :: runBackfill fetch fuel (toBlock + 1) head
        | _ => runBackfill fetch fuel (toBlock + 1) head
      else []

/-- A raw decoded log before `u64` narrowing: the `sol!` events carry
`uint256` fields (src/main.rs lines 20-28). -/
inductive RawLog
  | Deposit (user amount nonce timestamp : ℕ)
  | InitiateWithdraw (user nonce unlocksAt timestamp : ℕ)
  | Withdraw (user amount nonce timestamp : ℕ)
  | Restake (user nonce amount timestamp : ℕ)
deriving DecidableEq, Repr

/-- Well-formedness of a raw log: every `uint256` field is in range. -/
def WFRaw : RawLog → Prop
  | RawLog.Deposit u a n ts =>
      u < 2 ^ 160 ∧ a < 2 ^ 256 ∧ n < 2 ^ 256 ∧ ts < 2 ^ 256
  | RawLog.InitiateWithdraw u n uA ts =>
      u < 2 ^ 160 ∧ n < 2 ^ 256 ∧ uA < 2 ^ 256 ∧ ts < 2 ^ 256
  | RawLog.Withdraw u a n ts =>
      u < 2 ^ 160 ∧ a < 2 ^ 256 ∧ n < 2 ^ 256 ∧ ts < 2 ^ 256
  | RawLog.Restake u n a ts =>
      u < 2 ^ 160 ∧ n < 2 ^ 256 ∧ a < 2 ^ 256 ∧ ts < 2 ^ 256

instance (raw : RawLog) : Decidable (WFRaw raw) := by
  cases raw <;> unfold WFRaw <;> infer_instance

/-- The `nonce` field of a raw log. -/
def rawNonce : RawLog → ℕ
  | RawLog.Deposit _ _ n _ => n
  | RawLog.InitiateWithdraw _ n _ _ => n
  | RawLog.Withdraw _ _ n _ => n
  | RawLog.Restake _ n _ _ => n

/-- The `timestamp` field of a raw log. -/
def rawTimestamp : RawLog → ℕ
  | RawLog.Deposit _ _ _ ts => ts
  | RawLog.InitiateWithdraw _ _ _ ts => ts
  | RawLog.Withdraw _ _ _ ts => ts
  | RawLog.Restake _ _ _ ts => ts

/-- `U256::to::<u64>()`: succeeds exactly on values below `2^64`;
`none` models the panic on larger values. -/
def toU64 (x : ℕ) : Option ℕ :=
  if x < 2 ^ 64 then some x else none

/-- The narrowing performed on each decoded log by `handle_log`:
`nonce.to::<u64>()` and `timestamp.to::<u64>()` on every variant, and
additionally `format_timestamp(unlocksAt)` (which calls `.to::<u64>()`)
on InitiateWithdraw.  `none` models an unreachable panic aborting the
indexer. -/
def narrowLog : RawLog → Option StakingEvent
  | RawLog.Deposit u a n ts =>
      match toU64 n, toU64 ts with
      | some n64, some ts64 => some (StakingEvent.Deposit u a n64 ts64)
      | _, _ => none
  | RawLog.InitiateWithdraw u n uA ts =>
      match toU64 n, toU64 uA, toU64 ts with
      | some n64, some uA64, some ts64 =>
          some (StakingEvent.InitiateWithdraw u n64 uA64 ts64)
      | _, _, _ => none
  | RawLog.Withdraw u a n ts =>
      match toU64 n, toU64 ts with
      | some n64, some ts64 => some (StakingEvent.Withdraw u a n64 ts64)
      | _, _ => none
  | RawLog.Restake u n a ts =>
      match toU64 n, toU64 ts with
      | some n64, some ts64 => some (StakingEvent.Restake u n64 a ts64)
      | _, _ => none

/-- `handle_log` (src/main.rs lines 546-721) on one raw log: narrow the
`uint256` fields and apply the state transition; `none` models the
narrowing panic killing the indexer. -/
def handle_log (t : PointsTracker) (blockNum : ℕ) (raw : RawLog) :
    Option PointsTracker :=
  match narrowLog raw with
  | some e => some (handle_event t blockNum e)
  | none => none

/-! ## C8: leaderboard limit clamping -/

/-- C8, counterexample: the claim says a supplied limit below 1 is
raised to 1, but the handler computes `unwrap_or(10).min(100)` with no
lower clamp, so a supplied limit of 0 stays 0 (and negative values stay
negative). -/
theorem C8_counterexample :
    effective_limit (some 0) = 0 ∧ effective_limit (some (-3)) = -3 := by
  decide

/-- C8, amended: the effective leaderboard limit is 10 when the query
parameter is absent; a supplied value above 100 is reduced to 100; any
supplied value at most 100 — including 0 and negative values — is used
unchanged (there is no lower clamp at 1). -/
theorem C8_amended :
    effective_limit none = 10
    ∧ (∀ v : ℤ, 100 < v → effective_limit (some v) = 100)
    ∧ (∀ v : ℤ, v ≤ 100 → effective_limit (some v) = v) := by
  refine ⟨by decide, ?_, ?_⟩
  · intro v hv
    simp only [effective_limit, Option.getD_some]
    exact min_eq_right hv.le
  · intro v hv
    simp only [effective_limit, Option.getD_some]
    exact min_eq_left hv

/-- C8, witness: the amended claim evaluated at the absent parameter, at
250 (clamped down to 100) and at -7 (passed through unchanged). -/
theorem C8_witness :
    effective_limit none = 10 ∧ effective_limit (some 250) = 100
      ∧ effective_limit (some (-7)) = -7 :=
  ⟨C8_amended.1, C8_amended.2.1 250 (by decide), C8_amended.2.2 (-7) (by decide)⟩

/-! ## C9: address validation -/

/-- C9, counterexample: a 42-character string starting with "0x" whose
remaining 40 characters are not hexadecimal is ACCEPTED by the handlers
(src/api.rs checks only the prefix and the length), although it does not
match `^0x[0-9a-fA-F]{40}$`; the claim says such a string is rejected. -/
theorem C9_counterexample :
    isValidAddressCheck "0xzzzzzzzzzzzzzzzzzzzzzzzzzzzzzzzzzzzzzzzz" = true
    ∧ matchesAddressPattern "0xzzzzzzzzzzzzzzzzzzzzzzzzzzzzzzzzzzzzzzzz" = false := by
  decide

/-- C9, amended: a request is rejected with "Invalid address format"
exactly when the string does not start with "0x" or its length is not
42; hexadecimal content is not checked.  Hence rejection implies the
string fails the spec's pattern, but not conversely. -/
theorem C9_amended (address : String)
    (h : isValidAddressCheck address = false) :
    matchesAddressPattern address = false := by
  cases hm : matchesAddressPattern address
  · rfl
  · exfalso
    unfold matchesAddressPattern at hm
    have hv : isValidAddressCheck address = true := by
      unfold isValidAddressCheck
      simp only [Bool.and_eq_true] at hm ⊢
      exact ⟨hm.1.1, hm.1.2⟩
    rw [hv] at h
    cases h

/-- C9, witness: the amended claim applied to the rejected string
"abc". -/
theorem C9_witness :
    isValidAddressCheck "abc" = false ∧ matchesAddressPattern "abc" = false :=
  ⟨by decide, C9_amended "abc" (by decide)⟩

/-! ## C10: u64 narrowing of uint256 event fields -/

/-- C10, confirmed: for every well-formed raw log whose nonce or
timestamp exceeds `u64::MAX`, `handle_log` aborts (the `U256::to::<u64>()`
narrowing panics, modelled as `none`) instead of rejecting or skipping
the event; in particular a well-formed Deposit log with nonce `2^64`
kills the processing of any tracker state. -/
theorem C10_narrowing_aborts :
    (∀ raw : RawLog, WFRaw raw →
        2 ^ 64 ≤ rawNonce raw ∨ 2 ^ 64 ≤ rawTimestamp raw →
        ∀ (t : PointsTracker) (blockNum : ℕ),
          handle_log t blockNum raw = none)
    ∧ handle_log ⟨[], [], []⟩ 1
        (RawLog.Deposit 1 (10 ^ 18) (2 ^ 64) 1700000000) = none := by
  constructor
  · intro raw hwf hbig t blockNum
    cases raw with
    | Deposit u a n ts =>
        simp only [rawNonce, rawTimestamp] at hbig
        simp only [handle_log, narrowLog, toU64]
        rcases hbig with h | h
        · rw [if_neg (Nat.not_lt.mpr h)]
        · by_cases hn : n < 2 ^ 64
          · rw [if_pos hn, if_neg (Nat.not_lt.mpr h)]
          · rw [if_neg hn]
    | InitiateWithdraw u n uA ts =>
        simp only [rawNonce, rawTimestamp] at hbig
        simp only [handle_log, narrowLog, toU64]
        rcases hbig with h | h
        · rw [if_neg (Nat.not_lt.mpr h)]
        · by_cases hn : n < 2 ^ 64
          · by_cases hu : uA < 2 ^ 64
            · rw [if_pos hn, if_pos hu, if_neg (Nat.not_lt.mpr h)]
            · rw [if_pos hn, if_neg hu]
          · rw [if_neg hn]
    | Withdraw u a n ts =>
        simp only [rawNonce, rawTimestamp] at hbig
        simp only [handle_log, narrowLog, toU64]
        rcases hbig with h | h
        · rw [if_neg (Nat.not_lt.mpr h)]
        · by_cases hn : n < 2 ^ 64
          · rw [if_pos hn, if_neg (Nat.not_lt.mpr h)]
          · rw [if_neg hn]
    | Restake u n a ts =>
        simp only [rawNonce, rawTimestamp] at hbig
        simp only [handle_log, narrowLog, toU64]
        rcases hbig with h | h
        · rw [if_neg (Nat.not_lt.mpr h)]
        · by_cases hn : n < 2 ^ 64
          · rw [if_pos hn, if_neg (Nat.not_lt.mpr h)]
          · rw [if_neg hn]
  · decide

/-- C10, witness: a well-formed Withdraw log whose timestamp exceeds
`u64::MAX` aborts processing. -/
theorem C10_witness :
    handle_log ⟨[], [], []⟩ 7 (RawLog.Withdraw 2 5 3 (2 ^ 64 + 9)) = none :=
  C10_narrowing_aborts.1 _ (by decide) (Or.inr (by decide)) ⟨[], [], []⟩ 7

/-! ## C4: batch atomicity -/

/-- C4, counterexample: the claim says the commit of a batch is atomic,
so a crash between any two statements leaves the pre-batch state.  But
src/main.rs persists the position, the event and the cursor as three
independent statements: a crash after the first statement of a
one-Deposit batch leaves a state that differs from the pre-batch state
(the position is already persisted) and from the post-batch state. -/
theorem C4_counterexample :
    applyStmts { positions := [], events := [], last_processed_block := some 99 }
        ((depositRangeStmts 1 5 1 10 100 100 "0xabc").take 1)
      ≠ { positions := [], events := [], last_processed_block := some 99 }
    ∧ applyStmts { positions := [], events := [], last_processed_block := some 99 }
        ((depositRangeStmts 1 5 1 10 100 100 "0xabc").take 1)
      ≠ applyStmts { positions := [], events := [], last_processed_block := some 99 }
          (depositRangeStmts 1 5 1 10 100 100 "0xabc") := by
  decide

/-- C4, amended: the batch is NOT atomic.  The position upsert, the
event insert and the cursor update are three independent statements; a
crash after the first persists the position while the events table and
the cursor still hold their pre-batch values, and a crash after the
second persists position and event while the cursor is still the
pre-batch one. -/
theorem C4_amended (pre : DbState) (u a n ts b toBlock : ℕ) (tx : String) :
    (applyStmts pre ((depositRangeStmts u a n ts b toBlock tx).take 1)).events
        = pre.events
    ∧ (applyStmts pre ((depositRangeStmts u a n ts b toBlock tx).take 1)).last_processed_block
        = pre.last_processed_block
    ∧ lookupKey (applyStmts pre ((depositRangeStmts u a n ts b toBlock tx).take 1)).positions (u, n)
        = some { user := u, nonce := n, amount := a, deposit_timestamp := ts,
                 status := PositionStatus.Active,
                 withdrawal_initiated_timestamp := none, block_number := b }
    ∧ (applyStmts pre ((depositRangeStmts u a n ts b toBlock tx).take 2)).last_processed_block
        = pre.last_processed_block
    ∧ (applyStmts pre ((depositRangeStmts u a n ts b toBlock tx).take 2)).events
        ≠ pre.events := by
  refine ⟨rfl, rfl, by simp [applyStmts, depositRangeStmts, applyStmt], rfl, ?_⟩
  simp only [applyStmts, depositRangeStmts, List.take, List.foldl, applyStmt]
  intro hcontra
  have hlen := congrArg List.length hcontra
  simp at hlen

/-! ## C5: skipped ranges and the cursor -/

/-- One-step unfolding of the backfill loop. -/
lemma runBackfill_succ (fetch : ℕ → ℕ → ℕ → FetchResult)
    (fuel fromBlock head : ℕ) :
    runBackfill fetch (fuel + 1) fromBlock head =
      if fromBlock < head then
        match retryFetch fetch fromBlock
            (min (fromBlock + MAX_BLOCK_RANGE) head) 0 3 with
        | FetchResult.ok _ =>
            min (fromBlock + MAX_BLOCK_RANGE) head
              :: runBackfill fetch fuel
                (min (fromBlock + MAX_BLOCK_RANGE) head + 1) head
        | _ =>
            runBackfill fetch fuel
              (min (fromBlock + MAX_BLOCK_RANGE) head + 1) head
      else [] := rfl

/-- An RPC that fails with a non-rate-limit error on the range starting
at block 0 and succeeds on every other range. -/
def skipThenOkFetch (fromBlock : ℕ) (_toBlock _attempt : ℕ) : FetchResult :=
  if fromBlock = 0 then FetchResult.fetchErr else FetchResult.ok []

/-- C5, counterexample: with head 1000, the range [0, 500] fails with a
non-rate-limit error and is skipped without a cursor write, but the next
range [501, 1000] succeeds and persists `last_processed_block = 1000` —
a block at and beyond the skipped range — so the skipped range is NOT
re-indexed on the next start.  The claim says the cursor is never
advanced to or past a skipped range. -/
theorem C5_counterexample :
    retryFetch skipThenOkFetch 0 500 0 3 = FetchResult.fetchErr
    ∧ runBackfill skipThenOkFetch 3 0 1000 = [1000] := by
  decide

/-- C5, amended: when a range is skipped (rate-limit retries exhausted
or a non-rate-limit fetch error), the loop moves on to the next range,
and if that next range succeeds the cursor IS persisted at its end
block, which lies strictly beyond the skipped range; the skipped blocks
are therefore lost to re-indexing. -/
theorem C5_amended (fetch : ℕ → ℕ → ℕ → FetchResult)
    (fromBlock head fuel : ℕ) (hlt : fromBlock < head)
    (hskip : isOk (retryFetch fetch fromBlock
        (min (fromBlock + MAX_BLOCK_RANGE) head) 0 3) = false)
    (hnext : min (fromBlock + MAX_BLOCK_RANGE) head + 1 < head)
    (hok : isOk (retryFetch fetch (min (fromBlock + MAX_BLOCK_RANGE) head + 1)
        (min (min (fromBlock + MAX_BLOCK_RANGE) head + 1 + MAX_BLOCK_RANGE) head)
        0 3) = true) :
    min (fromBlock + MAX_BLOCK_RANGE) head
      < min (min (fromBlock + MAX_BLOCK_RANGE) head + 1 + MAX_BLOCK_RANGE) head
    ∧ min (min (fromBlock + MAX_BLOCK_RANGE) head + 1 + MAX_BLOCK_RANGE) head
        ∈ runBackfill fetch (fuel + 2) fromBlock head := by
  constructor
  · exact lt_min (by omega) (by omega)
  · have e1 : runBackfill fetch (fuel + 2) fromBlock head
        = runBackfill fetch (fuel + 1)
            (min (fromBlock + MAX_BLOCK_RANGE) head + 1) head := by
      rcases hres : retryFetch fetch fromBlock
          (min (fromBlock + MAX_BLOCK_RANGE) head) 0 3 with logs | _ | _
      · rw [hres] at hskip
        simp [isOk] at hskip
      · rw [runBackfill_succ, if_pos hlt, hres]
      · rw [runBackfill_succ, if_pos hlt, hres]
    rcases hres2 : retryFetch fetch (min (fromBlock + MAX_BLOCK_RANGE) head + 1)
        (min (min (fromBlock + MAX_BLOCK_RANGE) head + 1 + MAX_BLOCK_RANGE) head)
        0 3 with logs2 | _ | _
    · have e2 : runBackfill fetch (fuel + 1)
          (min (fromBlock + MAX_BLOCK_RANGE) head + 1) head
          = min (min (fromBlock + MAX_BLOCK_RANGE) head + 1 + MAX_BLOCK_RANGE) head
            :: runBackfill fetch fuel
              (min (min (fromBlock + MAX_BLOCK_RANGE) head + 1 + MAX_BLOCK_RANGE) head + 1)
              head := by
        rw [runBackfill_succ, if_pos hnext, hres2]
      rw [e1, e2]
      exact List.mem_cons_self _ _
    · rw [hres2] at hok
      simp [isOk] at hok
    · rw [hres2] at hok
      simp [isOk] at hok

/-- C5, witness: the amended claim at the concrete failing RPC: the
skipped range ends at block 500, and cursor value 1001 — past the
skipped range — is persisted by the following successful range. -/
theorem C5_witness :
    min (0 + MAX_BLOCK_RANGE) 1002
      < min (min (0 + MAX_BLOCK_RANGE) 1002 + 1 + MAX_BLOCK_RANGE) 1002
    ∧ min (min (0 + MAX_BLOCK_RANGE) 1002 + 1 + MAX_BLOCK_RANGE) 1002
        ∈ runBackfill skipThenOkFetch (0 + 2) 0 1002 :=
  C5_amended skipThenOkFetch 0 1002 0 (by decide) (by decide) (by decide)
    (by decide)

/-! ## C2: the points formula -/

/-- `u64` saturating subtraction equals the integer `max 0` clamp. -/
lemma natCast_sub_eq_max (a b : ℕ) :
    ((a - b : ℕ) : ℤ) = max 0 ((a : ℤ) - (b : ℤ)) := by
  rcases Nat.le_total b a with h | h
  · rw [Nat.cast_sub h, max_eq_right (sub_nonneg.mpr (by exact_mod_cast h))]
  · rw [Nat.sub_eq_zero_of_le h, max_eq_left (sub_nonpos.mpr (by exact_mod_cast h))]
    simp

/-- The clamp identity, cast into `ℚ`. -/
lemma natCast_sub_q (a b : ℕ) :
    ((a - b : ℕ) : ℚ) = ((max 0 ((a : ℤ) - (b : ℤ)) : ℤ) : ℚ) := by
  rw [← natCast_sub_eq_max]
  norm_cast

/-- C2, counterexample: the claim states that for EVERY position the
points use `seconds = max(0, T_end - deposit_timestamp)`.  The database
read path used by `GET /api/points/{address}`
(`Database::get_user_points`) performs no clamping: for a position with
`withdrawal_initiated_timestamp = 0 < deposit_timestamp = 86400` it
returns sage points -0.01, where the claim's clamped formula gives 0.
(The state is reachable: a Deposit with payload timestamp 86400 followed
by an InitiateWithdraw with payload timestamp 0 — nothing validates the
event timestamps.) -/
theorem C2_counterexample :
    (get_user_points 1700000000 1
        [{ user := 1, nonce := 1, amount := 10 ^ 18,
           deposit_timestamp := 86400, status := PositionStatus.Unstaking,
           withdrawal_initiated_timestamp := some 0,
           block_number := 100 }]).sage_points = -(1 / 100)
    ∧ (spec_position_points 1700000000
        { user := 1, nonce := 1, amount := 10 ^ 18,
          deposit_timestamp := 86400, status := PositionStatus.Unstaking,
          withdrawal_initiated_timestamp := some 0,
          block_number := 100 }).1 = 0 := by
  constructor
  · simp [get_user_points, db_position_points, db_position_seconds]
    norm_num
  · simp [spec_position_points]

/-- C2, amended: the in-memory path
(`PointsTracker::calculate_position_points`) computes exactly the
claim's clamped formula — `T_end` chosen from the withdrawal timestamp,
the reference time for unset-Active, or the deposit timestamp, and
`seconds = max(0, T_end - deposit_timestamp)` via saturating
subtraction — while the database read path omits the clamp (see the
counterexample).  The claim's concrete scenario holds on the database
path: a single Active position of 10^18 wei deposited at 1700000000,
read at 1700086400, yields sage 0.01, formation 0.005, total 0.015 and
active amount 1. -/
theorem C2_amended :
    (∀ (tRef : ℕ) (p : Position),
        (calculate_position_points tRef p).sage_points
            = (spec_position_points (tRef : ℤ) p).1
        ∧ (calculate_position_points tRef p).formation_points
            = (spec_position_points (tRef : ℤ) p).2)
    ∧ (get_user_points 1700086400 1
        [{ user := 1, nonce := 1, amount := 10 ^ 18,
           deposit_timestamp := 1700000000, status := PositionStatus.Active,
           withdrawal_initiated_timestamp := none, block_number := 100 }])
      = { address := 1, sage_points := 1 / 100, formation_points := 1 / 200,
          total_points := 3 / 200, active_amount := 1, unstaking_amount := 0,
          withdrawn_amount := 0 } := by
  constructor
  · intro tRef p
    cases hw : p.withdrawal_initiated_timestamp with
    | some ts =>
        constructor <;>
          · simp only [calculate_position_points, spec_position_points, hw]
            rw [natCast_sub_q]
    | none =>
        by_cases hs : p.status = PositionStatus.Active <;>
          constructor <;>
          · simp only [calculate_position_points, spec_position_points, hw, hs,
              if_true, if_false]
            rw [natCast_sub_q]
  · simp [get_user_points, db_position_points, db_position_seconds, UserPoints.mk.injEq]
    norm_num

/-! ## C3: points trend in the reference time -/

/-- C3, confirmed: `calculate_position_points` is constant in the
reference time for every position whose status is Unstaking or
Withdrawn, and monotone non-decreasing in the reference time for every
Active position. -/
theorem C3_points_trend :
    (∀ (p : Position) (t1 t2 : ℕ),
        p.status = PositionStatus.Unstaking
          ∨ p.status = PositionStatus.Withdrawn →
        calculate_position_points t1 p = calculate_position_points t2 p)
    ∧ (∀ (p : Position) (t1 t2 : ℕ),
        p.status = PositionStatus.Active → t1 ≤ t2 →
        (calculate_position_points t1 p).sage_points
            ≤ (calculate_position_points t2 p).sage_points
        ∧ (calculate_position_points t1 p).formation_points
            ≤ (calculate_position_points t2 p).formation_points) := by
  constructor
  · intro p t1 t2 h
    have hs : ¬ p.status = PositionStatus.Active := by
      rcases h with h | h <;> simp [h]
    cases hw : p.withdrawal_initiated_timestamp <;>
      simp [calculate_position_points, hw, hs]
  · intro p t1 t2 hA hle
    cases hw : p.withdrawal_initiated_timestamp with
    | some ts => simp [calculate_position_points, hw]
    | none =>
        have hsec : ((t1 - p.deposit_timestamp : ℕ) : ℚ)
            ≤ ((t2 - p.deposit_timestamp : ℕ) : ℚ) := by
          exact_mod_cast Nat.sub_le_sub_right hle _
        constructor <;>
          · simp only [calculate_position_points, hw, hA, if_true]
            gcongr

/-- C3, witness: constancy at a concrete Unstaking position and
monotonicity at a concrete Active position. -/
theorem C3_witness :
    calculate_position_points 0
        { user := 1, nonce := 1, amount := 10 ^ 18, deposit_timestamp := 3,
          status := PositionStatus.Unstaking,
          withdrawal_initiated_timestamp := some 5, block_number := 0 }
      = calculate_position_points 99
        { user := 1, nonce := 1, amount := 10 ^ 18, deposit_timestamp := 3,
          status := PositionStatus.Unstaking,
          withdrawal_initiated_timestamp := some 5, block_number := 0 }
    ∧ (calculate_position_points 10
        { user := 1, nonce := 1, amount := 10 ^ 18, deposit_timestamp := 3,
          status := PositionStatus.Active,
          withdrawal_initiated_timestamp := none, block_number := 0 }).sage_points
      ≤ (calculate_position_points 20
        { user := 1, nonce := 1, amount := 10 ^ 18, deposit_timestamp := 3,
          status := PositionStatus.Active,
          withdrawal_initiated_timestamp := none, block_number := 0 }).sage_points :=
  ⟨C3_points_trend.1 _ 0 99 (Or.inl rfl),
   (C3_points_trend.2 _ 10 20 rfl (by decide)).1⟩

/-! ## C7: leaderboard ordering -/

lemma mem_insertByTotalDesc (x z : UserTotals) (l : List UserTotals) :
    z ∈ insertByTotalDesc x l ↔ z = x ∨ z ∈ l := by
  induction l with
  | nil => simp [insertByTotalDesc]
  | cons y ys ih =>
      by_cases hc : totalOf y ≤ totalOf x
      · simp [insertByTotalDesc, hc]
      · simp [insertByTotalDesc, hc, ih]
        tauto

lemma pairwise_insertByTotalDesc (x : UserTotals) (l : List UserTotals)
    (h : List.Pairwise (fun a b => totalOf b ≤ totalOf a) l) :
    List.Pairwise (fun a b => totalOf b ≤ totalOf a)
      (insertByTotalDesc x l) := by
  induction l with
  | nil => simp [insertByTotalDesc]
  | cons y ys ih =>
      rw [List.pairwise_cons] at h
      obtain ⟨hy, hys⟩ := h
      by_cases hc : totalOf y ≤ totalOf x
      · rw [insertByTotalDesc, if_pos hc, List.pairwise_cons]
        refine ⟨?_, List.pairwise_cons.mpr ⟨hy, hys⟩⟩
        intro z hz
        rcases List.mem_cons.mp hz with hz | hz
        · exact hz ▸ hc
        · exact le_trans (hy z hz) hc
      · rw [insertByTotalDesc, if_neg hc, List.pairwise_cons]
        refine ⟨?_, ih hys⟩
        intro z hz
        rcases (mem_insertByTotalDesc x z ys).mp hz with hz | hz
        · exact hz ▸ le_of_lt (lt_of_not_le hc)
        · exact hy z hz

lemma sorted_sortByTotalDesc (l : List UserTotals) :
    List.Pairwise (fun a b => totalOf b ≤ totalOf a) (sortByTotalDesc l) := by
  induction l with
  | nil => simp [sortByTotalDesc]
  | cons x xs ih => exact pairwise_insertByTotalDesc x _ ih

lemma length_insertByTotalDesc (x : UserTotals) (l : List UserTotals) :
    (insertByTotalDesc x l).length = l.length + 1 := by
  induction l with
  | nil => rfl
  | cons y ys ih =>
      by_cases hc : totalOf y ≤ totalOf x <;>
        simp [insertByTotalDesc, hc, ih]

lemma length_sortByTotalDesc (l : List UserTotals) :
    (sortByTotalDesc l).length = l.length := by
  induction l with
  | nil => rfl
  | cons x xs ih => simp [sortByTotalDesc, length_insertByTotalDesc, ih]

lemma map_total_addRanks (i : ℕ) (l : List UserTotals) :
    (addRanks i l).map LeaderboardEntry.total_points = l.map totalOf := by
  induction l generalizing i with
  | nil => rfl
  | cons x xs ih =>
      obtain ⟨u, s, f⟩ := x
      simp [addRanks, ih, totalOf]

lemma map_rank_addRanks (i : ℕ) (l : List UserTotals) :
    (addRanks i l).map LeaderboardEntry.rank = List.range' i l.length := by
  induction l generalizing i with
  | nil => rfl
  | cons x xs ih =>
      obtain ⟨u, s, f⟩ := x
      simp [addRanks, ih, List.range'_succ]

lemma take_range' (s n m : ℕ) :
    (List.range' s n).take m = List.range' s (min m n) := by
  induction n generalizing s m with
  | zero => simp
  | succ n ih =>
      cases m with
      | zero => simp
      | succ m =>
          rw [List.range'_succ, List.take_cons, ih]
          · have h2 : min (m + 1) (n + 1) = min m n + 1 := by omega
            rw [h2, List.range'_succ]
            simp
          · omega

/-- C7, counterexample: two users with EQUAL totals, listed in the row
order user 2 before user 1.  The leaderboard returns addresses [2, 1]
— the tie is NOT broken by address ascending (which would give
[1, 2]); neither the SQL `ORDER BY total_points DESC` nor the in-memory
sort compares addresses. -/
theorem C7_counterexample :
    ((get_leaderboard 0
        [{ user := 2, nonce := 1, amount := 0, deposit_timestamp := 0,
           status := PositionStatus.Withdrawn,
           withdrawal_initiated_timestamp := some 0, block_number := 0 },
         { user := 1, nonce := 1, amount := 0, deposit_timestamp := 0,
           status := PositionStatus.Withdrawn,
           withdrawal_initiated_timestamp := some 0, block_number := 0 }]
        10).map LeaderboardEntry.address = [2, 1])
    ∧ ((get_leaderboard 0
        [{ user := 2, nonce := 1, amount := 0, deposit_timestamp := 0,
           status := PositionStatus.Withdrawn,
           withdrawal_initiated_timestamp := some 0, block_number := 0 },
         { user := 1, nonce := 1, amount := 0, deposit_timestamp := 0,
           status := PositionStatus.Withdrawn,
           withdrawal_initiated_timestamp := some 0, block_number := 0 }]
        10).map LeaderboardEntry.total_points = [0, 0])
    ∧ ([2, 1] : List ℕ) ≠ [1, 2] := by
  refine ⟨?_, ?_, by decide⟩ <;>
    norm_num [get_leaderboard, userTotals, db_position_points,
      db_position_seconds, addPoints, sortByTotalDesc, insertByTotalDesc,
      totalOf, addRanks]

/-- C7, amended: for every set of position rows the leaderboard is
sorted by `total_points = sage_points + formation_points` in
non-increasing order and the `rank` fields are the contiguous sequence
1, 2, ... up to the requested limit; ties are returned in an
implementation order (the grouping order), NOT broken by address. -/
theorem C7_amended (current_time : ℤ) (rows : List Position) (limit : ℕ) :
    List.Pairwise (fun a b => b ≤ a)
      ((get_leaderboard current_time rows limit).map
        LeaderboardEntry.total_points)
    ∧ (get_leaderboard current_time rows limit).map LeaderboardEntry.rank
        = List.range' 1 (min limit (userTotals current_time rows).length) := by
  constructor
  · rw [get_leaderboard, List.map_take, map_total_addRanks]
    refine List.Pairwise.sublist (List.take_sublist _ _) ?_
    exact (List.pairwise_map).mpr (sorted_sortByTotalDesc _)
  · rw [get_leaderboard, List.map_take, map_rank_addRanks,
      length_sortByTotalDesc, take_range']

/-! ## C1: the transition table -/

/-- Statuses agree with the containing map.  Holds in every state
reachable from the empty tracker. -/
def StatusOk (t : PointsTracker) : Prop :=
  (∀ k p, lookupKey t.active_positions k = some p →
      p.status = PositionStatus.Active)
  ∧ (∀ k p, lookupKey t.unstaking_positions k = some p →
      p.status = PositionStatus.Unstaking)
  ∧ (∀ k p, lookupKey t.withdrawn_positions k = some p →
      p.status = PositionStatus.Withdrawn)

/-- Every key lives in at most one of the three maps (at least two of
the three lookups are `none`).  Holds in every state reachable from the
empty tracker by sequences without duplicate-key Deposits; a duplicate
Deposit can break it (see the C1 counterexample). -/
def AtMostOneMap (t : PointsTracker) : Prop :=
  ∀ k : Key,
    (lookupKey t.active_positions k = none
      ∧ lookupKey t.unstaking_positions k = none)
    ∨ (lookupKey t.active_positions k = none
      ∧ lookupKey t.withdrawn_positions k = none)
    ∨ (lookupKey t.unstaking_positions k = none
      ∧ lookupKey t.withdrawn_positions k = none)

lemma get_position_none (t : PointsTracker) (k : Key)
    (h : get_position t k = none) :
    lookupKey t.active_positions k = none
    ∧ lookupKey t.unstaking_positions k = none
    ∧ lookupKey t.withdrawn_positions k = none := by
  unfold get_position at h
  cases ha : lookupKey t.active_positions k with
  | some q => rw [ha] at h; exact Option.noConfusion h
  | none =>
      rw [ha] at h
      cases hu : lookupKey t.unstaking_positions k with
      | some q => rw [hu] at h; exact Option.noConfusion h
      | none =>
          rw [hu] at h
          exact ⟨rfl, rfl, h⟩

lemma position_in_active (t : PointsTracker) (k : Key) (p : Position)
    (hok : StatusOk t) (hone : AtMostOneMap t)
    (h : get_position t k = some p)
    (hs : p.status = PositionStatus.Active) :
    lookupKey t.active_positions k = some p
    ∧ lookupKey t.unstaking_positions k = none
    ∧ lookupKey t.withdrawn_positions k = none := by
  unfold get_position at h
  cases ha : lookupKey t.active_positions k with
  | some q =>
      rw [ha] at h
      rcases hone k with ⟨h1, h2⟩ | ⟨h1, h2⟩ | ⟨h1, h2⟩
      · rw [h1] at ha; exact Option.noConfusion ha
      · rw [h1] at ha; exact Option.noConfusion ha
      · exact ⟨h, h1, h2⟩
  | none =>
      exfalso
      rw [ha] at h
      cases hu : lookupKey t.unstaking_positions k with
      | some q =>
          rw [hu] at h
          have h2 : (some q : Option Position) = some p := h
          injection h2 with hqp
          have hst := hok.2.1 k q hu
          rw [hqp] at hst
          rw [hst] at hs
          exact PositionStatus.noConfusion hs
      | none =>
          rw [hu] at h
          have h2 : lookupKey t.withdrawn_positions k = some p := h
          have hst := hok.2.2 k p h2
          rw [hst] at hs
          exact PositionStatus.noConfusion hs

lemma position_in_unstaking (t : PointsTracker) (k : Key) (p : Position)
    (hok : StatusOk t) (hone : AtMostOneMap t)
    (h : get_position t k = some p)
    (hs : p.status = PositionStatus.Unstaking) :
    lookupKey t.unstaking_positions k = some p
    ∧ lookupKey t.active_positions k = none
    ∧ lookupKey t.withdrawn_positions k = none := by
  unfold get_position at h
  cases ha : lookupKey t.active_positions k with
  | some q =>
      exfalso
      rw [ha] at h
      have h2 : (some q : Option Position) = some p := h
      injection h2 with hqp
      have hst := hok.1 k q ha
      rw [hqp] at hst
      rw [hst] at hs
      exact PositionStatus.noConfusion hs
  | none =>
      rw [ha] at h
      cases hu : lookupKey t.unstaking_positions k with
      | some q =>
          rw [hu] at h
          rcases hone k with ⟨h1, h2⟩ | ⟨h1, h2⟩ | ⟨h1, h2⟩
          · rw [h2] at hu; exact Option.noConfusion hu
          · exact ⟨h, rfl, h2⟩
          · rw [h1] at hu; exact Option.noConfusion hu
      | none =>
          exfalso
          rw [hu] at h
          have h2 : lookupKey t.withdrawn_positions k = some p := h
          have hst := hok.2.2 k p h2
          rw [hst] at hs
          exact PositionStatus.noConfusion hs

lemma position_in_withdrawn (t : PointsTracker) (k : Key) (p : Position)
    (hok : StatusOk t) (_hone : AtMostOneMap t)
    (h : get_position t k = some p)
    (hs : p.status = PositionStatus.Withdrawn) :
    lookupKey t.withdrawn_positions k = some p
    ∧ lookupKey t.active_positions k = none
    ∧ lookupKey t.unstaking_positions k = none := by
  unfold get_position at h
  cases ha : lookupKey t.active_positions k with
  | some q =>
      exfalso
      rw [ha] at h
      have h2 : (some q : Option Position) = some p := h
      injection h2 with hqp
      have hst := hok.1 k q ha
      rw [hqp] at hst
      rw [hst] at hs
      exact PositionStatus.noConfusion hs
  | none =>
      rw [ha] at h
      cases hu : lookupKey t.unstaking_positions k with
      | some q =>
          exfalso
          rw [hu] at h
          have h2 : (some q : Option Position) = some p := h
          injection h2 with hqp
          have hst := hok.2.1 k q hu
          rw [hqp] at hst
          rw [hst] at hs
          exact PositionStatus.noConfusion hs
      | none =>
          rw [hu] at h
          exact ⟨h, rfl, rfl⟩

/-- C1, counterexample: with an Active position of amount 5 stored at
key (1, 1), a second Deposit for the same key is NOT rejected: the
tracker changes and the stored position's amount becomes 7.  The claim
says a Deposit whose key already exists is rejected and leaves the
stored position unchanged. -/
theorem C1_counterexample :
    (get_position
        { active_positions :=
            [((1, 1),
              { user := 1, nonce := 1, amount := 5, deposit_timestamp := 10,
                status := PositionStatus.Active,
                withdrawal_initiated_timestamp := none, block_number := 3 })],
          unstaking_positions := [], withdrawn_positions := [] }
        (1, 1)).map Position.amount = some 5
    ∧ handle_event
        { active_positions :=
            [((1, 1),
              { user := 1, nonce := 1, amount := 5, deposit_timestamp := 10,
                status := PositionStatus.Active,
                withdrawal_initiated_timestamp := none, block_number := 3 })],
          unstaking_positions := [], withdrawn_positions := [] }
        4 (StakingEvent.Deposit 1 7 1 20)
      ≠ { active_positions :=
            [((1, 1),
              { user := 1, nonce := 1, amount := 5, deposit_timestamp := 10,
                status := PositionStatus.Active,
                withdrawal_initiated_timestamp := none, block_number := 3 })],
          unstaking_positions := [], withdrawn_positions := [] }
    ∧ (get_position
        (handle_event
          { active_positions :=
              [((1, 1),
                { user := 1, nonce := 1, amount := 5, deposit_timestamp := 10,
                  status := PositionStatus.Active,
                  withdrawal_initiated_timestamp := none, block_number := 3 })],
            unstaking_positions := [], withdrawn_positions := [] }
          4 (StakingEvent.Deposit 1 7 1 20))
        (1, 1)).map Position.amount = some 7 := by
  decide

/-- C1, amended: on any tracker whose statuses match their maps and
whose maps are key-disjoint, the transitions follow the table for all
rows EXCEPT the Deposit column: InitiateWithdraw moves an Active
position to Unstaking stamping the withdrawal timestamp; Withdraw moves
an Unstaking position to Withdrawn; Restake moves an Unstaking position
back to Active resetting `deposit_timestamp` and clearing the
withdrawal timestamp; every other non-Deposit combination (absent key,
wrong status) leaves the tracker entirely unchanged.  A Deposit,
however, ALWAYS installs a fresh Active position at its key — on an
existing key it is not rejected but overwrites (or shadows) the stored
position. -/
theorem C1_amended (t : PointsTracker) (hok : StatusOk t)
    (hone : AtMostOneMap t) (u n a uA b ts : ℕ) :
    (get_position (handle_event t b (StakingEvent.Deposit u a n ts)) (u, n)
        = some
          { user := u, nonce := n, amount := a, deposit_timestamp := ts,
            status := PositionStatus.Active,
            withdrawal_initiated_timestamp := none, block_number := b })
    ∧ (get_position t (u, n) = none →
        handle_event t b (StakingEvent.InitiateWithdraw u n uA ts) = t
        ∧ handle_event t b (StakingEvent.Withdraw u a n ts) = t
        ∧ handle_event t b (StakingEvent.Restake u n a ts) = t)
    ∧ (∀ p, get_position t (u, n) = some p →
        p.status = PositionStatus.Active →
        get_position
            (handle_event t b (StakingEvent.InitiateWithdraw u n uA ts))
            (u, n)
          = some
            { p with
              status := PositionStatus.Unstaking,
              withdrawal_initiated_timestamp := some ts }
        ∧ handle_event t b (StakingEvent.Withdraw u a n ts) = t
        ∧ handle_event t b (StakingEvent.Restake u n a ts) = t)
    ∧ (∀ p, get_position t (u, n) = some p →
        p.status = PositionStatus.Unstaking →
        get_position
            (handle_event t b (StakingEvent.Withdraw u a n ts)) (u, n)
          = some { p with status := PositionStatus.Withdrawn }
        ∧ get_position
            (handle_event t b (StakingEvent.Restake u n a ts)) (u, n)
          = some
            { p with
              status := PositionStatus.Active,
              deposit_timestamp := ts,
              withdrawal_initiated_timestamp := none }
        ∧ handle_event t b (StakingEvent.InitiateWithdraw u n uA ts) = t)
    ∧ (∀ p, get_position t (u, n) = some p →
        p.status = PositionStatus.Withdrawn →
        handle_event t b (StakingEvent.InitiateWithdraw u n uA ts) = t
        ∧ handle_event t b (StakingEvent.Withdraw u a n ts) = t
        ∧ handle_event t b (StakingEvent.Restake u n a ts) = t) := by
  refine ⟨?_, ?_, ?_, ?_, ?_⟩
  · simp [handle_event, add_active_position, get_position]
  · intro h
    obtain ⟨ha, hu, hw⟩ := get_position_none t (u, n) h
    exact ⟨by simp [handle_event, move_to_unstaking, ha],
      by simp [handle_event, move_to_withdrawn, hu],
      by simp [handle_event, move_to_active, hu]⟩
  · intro p h hs
    obtain ⟨ha, hu, hw⟩ := position_in_active t (u, n) p hok hone h hs
    refine ⟨?_, by simp [handle_event, move_to_withdrawn, hu],
      by simp [handle_event, move_to_active, hu]⟩
    simp [handle_event, move_to_unstaking, ha, get_position]
  · intro p h hs
    obtain ⟨hu, ha, hw⟩ := position_in_unstaking t (u, n) p hok hone h hs
    refine ⟨?_, ?_, by simp [handle_event, move_to_unstaking, ha]⟩
    · simp [handle_event, move_to_withdrawn, hu, get_position, ha]
    · simp [handle_event, move_to_active, hu, get_position]
  · intro p h hs
    obtain ⟨hw, ha, hu⟩ := position_in_withdrawn t (u, n) p hok hone h hs
    exact ⟨by simp [handle_event, move_to_unstaking, ha],
      by simp [handle_event, move_to_withdrawn, hu],
      by simp [handle_event, move_to_active, hu]⟩

/-- C1, witness: on the empty tracker (statuses trivially consistent,
maps trivially disjoint), a Deposit for the absent key (1, 2) creates
the Active position with the event's fields. -/
theorem C1_witness :
    get_position
        (handle_event
          { active_positions := [], unstaking_positions := [],
            withdrawn_positions := [] }
          5 (StakingEvent.Deposit 1 7 2 9)) (1, 2)
      = some
        { user := 1, nonce := 2, amount := 7, deposit_timestamp := 9,
          status := PositionStatus.Active,
          withdrawal_initiated_timestamp := none, block_number := 5 } :=
  (C1_amended
    { active_positions := [], unstaking_positions := [],
      withdrawn_positions := [] }
    (by refine ⟨?_, ?_, ?_⟩ <;> intro k p h <;> simp [lookupKey] at h)
    (fun k => Or.inl ⟨rfl, rfl⟩) 1 2 7 0 5 9).1

/-! ## C6: immutability of the amount -/

/-- The key `k` is stored in exactly one of the three maps, with amount
`a`: the inductive invariant behind I1. -/
def soleAmount (t : PointsTracker) (k : Key) (a : ℕ) : Prop :=
  ((lookupKey t.active_positions k).map Position.amount = some a
    ∧ lookupKey t.unstaking_positions k = none
    ∧ lookupKey t.withdrawn_positions k = none)
  ∨ (lookupKey t.active_positions k = none
    ∧ (lookupKey t.unstaking_positions k).map Position.amount = some a
    ∧ lookupKey t.withdrawn_positions k = none)
  ∨ (lookupKey t.active_positions k = none
    ∧ lookupKey t.unstaking_positions k = none
    ∧ (lookupKey t.withdrawn_positions k).map Position.amount = some a)

/-- If all three lookups at `k` are unchanged, `soleAmount` carries
over. -/
lemma soleAmount_congr (t t2 : PointsTracker) (k : Key) (a : ℕ)
    (h1 : lookupKey t2.active_positions k = lookupKey t.active_positions k)
    (h2 : lookupKey t2.unstaking_positions k
        = lookupKey t.unstaking_positions k)
    (h3 : lookupKey t2.withdrawn_positions k
        = lookupKey t.withdrawn_positions k)
    (h : soleAmount t k a) : soleAmount t2 k a := by
  unfold soleAmount at h ⊢
  rw [h1, h2, h3]
  exact h

/-- Any event that is not a Deposit for key `k` preserves `soleAmount`:
the three transition moves change the status and the timestamps but copy
the amount, and operations on other keys do not touch `k`. -/
lemma soleAmount_handle_event (t : PointsTracker) (k : Key)
    (a blockNum : ℕ) (e : StakingEvent) (h : soleAmount t k a)
    (he : isDepositEvent e = true → eventKey e ≠ k) :
    soleAmount (handle_event t blockNum e) k a := by
  cases e with
  | Deposit u2 a2 n2 ts2 =>
      have hne : k ≠ (u2, n2) := Ne.symm (he rfl)
      refine soleAmount_congr t _ k a ?_ ?_ ?_ h
      · simp [handle_event, add_active_position,
          lookup_insert_ne _ _ _ _ hne]
      · simp [handle_event, add_active_position]
      · simp [handle_event, add_active_position]
  | InitiateWithdraw u2 n2 uA2 ts2 =>
      by_cases hk : (u2, n2) = k
      · subst hk
        rcases h with ⟨h1, h2, h3⟩ | ⟨h1, h2, h3⟩ | ⟨h1, h2, h3⟩
        · obtain ⟨p, hp, hpa⟩ := Option.map_eq_some'.mp h1
          refine Or.inr (Or.inl ⟨?_, ?_, ?_⟩)
          · simp [handle_event, move_to_unstaking, hp]
          · simp [handle_event, move_to_unstaking, hp, hpa]
          · simp [handle_event, move_to_unstaking, hp, h3]
        · have hnoop :
              handle_event t blockNum
                  (StakingEvent.InitiateWithdraw u2 n2 uA2 ts2) = t := by
            simp [handle_event, move_to_unstaking, h1]
          rw [hnoop]
          exact Or.inr (Or.inl ⟨h1, h2, h3⟩)
        · have hnoop :
              handle_event t blockNum
                  (StakingEvent.InitiateWithdraw u2 n2 uA2 ts2) = t := by
            simp [handle_event, move_to_unstaking, h1]
          rw [hnoop]
          exact Or.inr (Or.inr ⟨h1, h2, h3⟩)
      · have hne : k ≠ (u2, n2) := fun hcontra => hk hcontra.symm
        cases hl : lookupKey t.active_positions (u2, n2) with
        | none =>
            have hnoop :
                handle_event t blockNum
                    (StakingEvent.InitiateWithdraw u2 n2 uA2 ts2) = t := by
              simp [handle_event, move_to_unstaking, hl]
            rw [hnoop]
            exact h
        | some p =>
            refine soleAmount_congr t _ k a ?_ ?_ ?_ h
            · simp [handle_event, move_to_unstaking, hl,
                lookup_remove_ne _ _ _ hne]
            · simp [handle_event, move_to_unstaking, hl,
                lookup_insert_ne _ _ _ _ hne]
            · simp [handle_event, move_to_unstaking, hl]
  | Withdraw u2 a2 n2 ts2 =>
      by_cases hk : (u2, n2) = k
      · subst hk
        rcases h with ⟨h1, h2, h3⟩ | ⟨h1, h2, h3⟩ | ⟨h1, h2, h3⟩
        · have hnoop :
              handle_event t blockNum
                  (StakingEvent.Withdraw u2 a2 n2 ts2) = t := by
            simp [handle_event, move_to_withdrawn, h2]
          rw [hnoop]
          exact Or.inl ⟨h1, h2, h3⟩
        · obtain ⟨p, hp, hpa⟩ := Option.map_eq_some'.mp h2
          refine Or.inr (Or.inr ⟨?_, ?_, ?_⟩)
          · simp [handle_event, move_to_withdrawn, hp, h1]
          · simp [handle_event, move_to_withdrawn, hp]
          · simp [handle_event, move_to_withdrawn, hp, hpa]
        · have hnoop :
              handle_event t blockNum
                  (StakingEvent.Withdraw u2 a2 n2 ts2) = t := by
            simp [handle_event, move_to_withdrawn, h2]
          rw [hnoop]
          exact Or.inr (Or.inr ⟨h1, h2, h3⟩)
      · have hne : k ≠ (u2, n2) := fun hcontra => hk hcontra.symm
        cases hl : lookupKey t.unstaking_positions (u2, n2) with
        | none =>
            have hnoop :
                handle_event t blockNum
                    (StakingEvent.Withdraw u2 a2 n2 ts2) = t := by
              simp [handle_event, move_to_withdrawn, hl]
            rw [hnoop]
            exact h
        | some p =>
            refine soleAmount_congr t _ k a ?_ ?_ ?_ h
            · simp [handle_event, move_to_withdrawn, hl]
            · simp [handle_event, move_to_withdrawn, hl,
                lookup_remove_ne _ _ _ hne]
            · simp [handle_event, move_to_withdrawn, hl,
                lookup_insert_ne _ _ _ _ hne]
  | Restake u2 n2 a2 ts2 =>
      by_cases hk : (u2, n2) = k
      · subst hk
        rcases h with ⟨h1, h2, h3⟩ | ⟨h1, h2, h3⟩ | ⟨h1, h2, h3⟩
        · have hnoop :
              handle_event t blockNum
                  (StakingEvent.Restake u2 n2 a2 ts2) = t := by
            simp [handle_event, move_to_active, h2]
          rw [hnoop]
          exact Or.inl ⟨h1, h2, h3⟩
        · obtain ⟨p, hp, hpa⟩ := Option.map_eq_some'.mp h2
          refine Or.inl ⟨?_, ?_, ?_⟩
          · simp [handle_event, move_to_active, hp, hpa]
          · simp [handle_event, move_to_active, hp]
          · simp [handle_event, move_to_active, hp, h3]
        · have hnoop :
              handle_event t blockNum
                  (StakingEvent.Restake u2 n2 a2 ts2) = t := by
            simp [handle_event, move_to_active, h2]
          rw [hnoop]
          exact Or.inr (Or.inr ⟨h1, h2, h3⟩)
      · have hne : k ≠ (u2, n2) := fun hcontra => hk hcontra.symm
        cases hl : lookupKey t.unstaking_positions (u2, n2) with
        | none =>
            have hnoop :
                handle_event t blockNum
                    (StakingEvent.Restake u2 n2 a2 ts2) = t := by
              simp [handle_event, move_to_active, hl]
            rw [hnoop]
            exact h
        | some p =>
            refine soleAmount_congr t _ k a ?_ ?_ ?_ h
            · simp [handle_event, move_to_active, hl,
                lookup_insert_ne _ _ _ _ hne]
            · simp [handle_event, move_to_active, hl,
                lookup_remove_ne _ _ _ hne]
            · simp [handle_event, move_to_active, hl]

/-- `soleAmount` is preserved by any event sequence containing no
Deposit for the key. -/
lemma soleAmount_applyEvents (es : List (ℕ × StakingEvent))
    (t : PointsTracker) (k : Key) (a : ℕ) (h : soleAmount t k a)
    (hes : ∀ x ∈ es, isDepositEvent x.2 = true → eventKey x.2 ≠ k) :
    soleAmount (applyEvents t es) k a := by
  induction es generalizing t with
  | nil => exact h
  | cons hd tl ih =>
      have hstep := soleAmount_handle_event t k a hd.1 hd.2 h
        (hes hd (List.mem_cons_self hd tl))
      exact ih (handle_event t hd.1 hd.2) hstep
        (fun x hx => hes x (List.mem_cons_of_mem hd hx))

/-- `soleAmount` determines the amount seen through `get_position`. -/
lemma get_position_of_soleAmount (t : PointsTracker) (k : Key) (a : ℕ)
    (h : soleAmount t k a) :
    (get_position t k).map Position.amount = some a := by
  rcases h with ⟨h1, h2, h3⟩ | ⟨h1, h2, h3⟩ | ⟨h1, h2, h3⟩
  · obtain ⟨p, hp, hpa⟩ := Option.map_eq_some'.mp h1
    simp [get_position, hp, hpa]
  · obtain ⟨p, hp, hpa⟩ := Option.map_eq_some'.mp h2
    simp [get_position, h1, hp, hpa]
  · obtain ⟨p, hp, hpa⟩ := Option.map_eq_some'.mp h3
    simp [get_position, h1, h2, hp, hpa]

/-- C6, counterexample: the claim quantifies over every event sequence,
but a second Deposit with the same (user, nonce) key is not rejected
(see C1) and overwrites the amount: after Deposit(amount 5) followed by
Deposit(amount 7) on key (1, 1), the stored amount is 7, no longer the
creation amount 5. -/
theorem C6_counterexample :
    (get_position
        (applyEvents
          { active_positions := [], unstaking_positions := [],
            withdrawn_positions := [] }
          [(1, StakingEvent.Deposit 1 5 1 10)]) (1, 1)).map Position.amount
      = some 5
    ∧ (get_position
        (applyEvents
          { active_positions := [], unstaking_positions := [],
            withdrawn_positions := [] }
          [(1, StakingEvent.Deposit 1 5 1 10),
           (2, StakingEvent.Deposit 1 7 1 20)]) (1, 1)).map Position.amount
      = some 7 := by
  decide

/-- C6, amended: the amount is set by the Deposit that creates the
position and is never changed by any later InitiateWithdraw, Withdraw
or Restake, nor by any event for a different key: after the creating
Deposit, any event sequence containing no further Deposit for that key
leaves the stored amount equal to the created amount.  (A duplicate
Deposit for the same key, however, overwrites it — see the
counterexample.) -/
theorem C6_amended (t : PointsTracker) (blockNum u a n ts : ℕ)
    (es : List (ℕ × StakingEvent))
    (hfresh : lookupKey t.active_positions (u, n) = none
      ∧ lookupKey t.unstaking_positions (u, n) = none
      ∧ lookupKey t.withdrawn_positions (u, n) = none)
    (hnodep : ∀ x ∈ es, isDepositEvent x.2 = true → eventKey x.2 ≠ (u, n)) :
    (get_position
        (applyEvents
          (handle_event t blockNum (StakingEvent.Deposit u a n ts))
          es) (u, n)).map Position.amount = some a := by
  apply get_position_of_soleAmount
  apply soleAmount_applyEvents es _ _ _ _ hnodep
  refine Or.inl ⟨?_, ?_, ?_⟩
  · simp [handle_event, add_active_position]
  · simp [handle_event, add_active_position, hfresh.2.1]
  · simp [handle_event, add_active_position, hfresh.2.2]

/-- C6, witness: a full lifecycle without duplicate deposit — Deposit
then InitiateWithdraw then Withdraw on key (1, 1) — keeps the created
amount 5. -/
theorem C6_witness :
    (get_position
        (applyEvents
          (handle_event
            { active_positions := [], unstaking_positions := [],
              withdrawn_positions := [] }
            1 (StakingEvent.Deposit 1 5 1 10))
          [(2, StakingEvent.InitiateWithdraw 1 1 0 50),
           (3, StakingEvent.Withdraw 1 5 1 60)]) (1, 1)).map Position.amount
      = some 5 :=
  C6_amended
    { active_positions := [], unstaking_positions := [],
      withdrawn_positions := [] }
    1 1 5 1 10
    [(2, StakingEvent.InitiateWithdraw 1 1 0 50),
     (3, StakingEvent.Withdraw 1 5 1 60)]
    ⟨rfl, rfl, rfl⟩ (by decide)

end SagePoints
